import Mathlib

/-!
Shallow embedding of the guidance core of the `firefly` lunar-lander bot:
the rotation primitive `rotate`, the terrain analyzer `find_landing_site`,
the baseline per-tick controller `Bot.run` of `bot.py` (modelled as
`runBaseline`), and the advanced per-tick controller of `firefly_bot.py`
(modelled as `runFirefly`).

Modelling conventions:
* Python floats (positions, velocities, headings, terrain altitudes) are
  modelled as rationals `ℚ`.
* The per-bot mutable attributes touched by `run` become explicit state
  records (`BotState`, `FireflyState`); `run` returns the new state.
* A Python exception (the out-of-bounds numpy assignment on an empty
  terrain, or an out-of-range terrain index) is modelled as
  `Except.error ()`; a normal return is `Except.ok`.
* The external PID controller (`simple_pid`, an external collaborator with
  hidden time-dependent state) is abstracted: the value the controller
  returns this tick is an oracle input of `runFirefly`
  (`pidtheta_out` for `self.pidtheta(head)`, `pidy_out` for `self.pidy(y)`).
-/

/-- The per-tick output record of the simulation's `Instructions` class:
three boolean actuator flags, all defaulting to `false` (coast). -/
structure Instructions where
  main : Bool := false
  left : Bool := false
  right : Bool := false
deriving DecidableEq

/-- The two possible rotation commands (the Python strings
`"left"` / `"right"`). -/
inductive Rot where
  | left
  | right
deriving DecidableEq

/-- `rotate(current, target)` from `bot.py` line 10 / `firefly_bot.py`
line 21: `None` inside the half-degree dead-band, else `"left"` when
`current < target`, `"right"` otherwise. -/
def rotate (current target : ℚ) : Option Rot :=
  if |current - target| < 1/2 then none
  else if current < target then some Rot.left else some Rot.right

/-- Whether index `i` is marked `True` in the numpy mask `loc_run_start`:
index 0 is always a run start, index `i > 0` is one iff
`terrain[i-1] ≠ terrain[i]`. -/
def isRunStart (t : List ℚ) (i : ℕ) : Prop :=
  i = 0 ∨ t.getD (i-1) 0 ≠ t.getD i 0

instance (t : List ℚ) (i : ℕ) : Decidable (isRunStart t i) := by
  unfold isRunStart; infer_instance

/-- `run_starts = np.nonzero(loc_run_start)[0]`: the indices `< n` whose
mask bit is set, in increasing order. -/
def run_starts (t : List ℚ) : List ℕ :=
  (List.range t.length).filter fun i => decide (isRunStart t i)

/-- `np.diff`: consecutive differences of a list of naturals. -/
def np_diff : List ℕ → List ℕ
  | a :: b :: rest => (b - a) :: np_diff (b :: rest)
  | _ => []

/-- `run_lengths = np.diff(np.append(run_starts, n))`. -/
def run_lengths (t : List ℚ) : List ℕ :=
  np_diff (run_starts t ++ [t.length])

/-- Accumulator loop of `np.argmax`: scan the remaining values with the
current best `(index, value)`, updating only on a strictly greater value
(so the first maximum wins). -/
def argmaxGo : List ℕ → ℕ → ℕ → ℕ → ℕ × ℕ
  | [], _, bi, bv => (bi, bv)
  | v :: rest, i, bi, bv =>
    if bv < v then argmaxGo rest (i+1) i v
    else argmaxGo rest (i+1) bi bv

/-- `np.argmax`: index of the first occurrence of the maximum. -/
def argmax (l : List ℕ) : ℕ :=
  match l with
  | [] => 0
  | v :: rest => (argmaxGo rest 1 0 v).1

/-- `find_landing_site(terrain)` from `bot.py` line 16 /
`firefly_bot.py` line 27.  On an empty terrain the numpy assignment
`loc_run_start[0] = True` raises `IndexError`, modelled as
`Except.error ()`.  Otherwise the widest run (first maximum of
`run_lengths`) is selected and its midpoint
`int(start + (end - start) * 0.5) = start + length / 2` is returned when
the width is strictly greater than 40; else `none`. -/
def find_landing_site (t : List ℚ) : Except Unit (Option ℕ) :=
  match t with
  | [] => Except.error ()
  | _ :: _ =>
    let rs := run_starts t
    let rl := run_lengths t
    let imax := argmax rl
    let start := rs.getD imax 0
    let len := rl.getD imax 0
    if 40 < len then Except.ok (some (start + len / 2)) else Except.ok none

/-- The attributes of the baseline bot (`bot.py`) that `run` reads or
writes: `self.initial_manoeuvre` and `self.target_site`. -/
structure BotState where
  initial_manoeuvre : Bool
  target_site : Option ℕ
deriving DecidableEq

/-- One tick of the baseline bot, `Bot.run` of `bot.py` lines 52-133.
Inputs are the bot state and the tick's vehicle kinematics
(`x, y` position, `vx, vy` velocity, `head` heading); the result is the
emitted `Instructions` together with the updated state, or an error when
`find_landing_site` is called on an empty terrain. -/
def runBaseline (s : BotState) (terrain : List ℚ) (x y vx vy head : ℚ) :
    Except Unit (Instructions × BotState) :=
  if s.initial_manoeuvre then
    if vx > 10 then Except.ok ({ main := true }, s)
    else
      match rotate head 0 with
      | some Rot.left => Except.ok ({ left := true }, s)
      | some Rot.right => Except.ok ({ right := true }, s)
      | none => Except.ok ({}, { s with initial_manoeuvre := false })
  else
    match (match s.target_site with
           | none => find_landing_site terrain
           | some v => Except.ok (some v)) with
    | Except.error e => Except.error e
    | Except.ok ts =>
      let s' : BotState := { s with target_site := ts }
      match ts with
      | none =>
        Except.ok (if y < 900 ∧ vy < 0 then { main := true } else {}, s')
      | some site =>
        let diff : ℚ := (site : ℚ) - x
        if |diff| < 50 then
          let cm : Option Rot × Bool :=
            if |vx| ≤ 1/10 then (rotate head 0, false)
            else if vx > 1/10 then (rotate head 90, true)
            else (rotate head (-90), false)
          let instr1 : Instructions :=
            { main := cm.2,
              left := cm.1 == some Rot.left,
              right := cm.1 == some Rot.right }
          Except.ok
            (if |vx| < 1/2 ∧ vy < -3 then { instr1 with main := true }
             else instr1, s')
        else
          Except.ok (if vy < 0 then { main := true } else {}, s')

/-- The attributes of the advanced bot (`firefly_bot.py`) that `run`
reads or writes and that the claims mention: `self.initial_manoeuvre`,
`self.target_site` and `self.initial_target_site`
(`int(screen_width / 2)`).  The PID controller instances are abstracted
(their tick outputs are oracle inputs of `runFirefly`). -/
structure FireflyState where
  initial_manoeuvre : Bool
  target_site : Option ℕ
  initial_target_site : ℕ
deriving DecidableEq

/-- One tick of the advanced bot, `Bot.run` of `firefly_bot.py`
lines 70-187.  `pidtheta_out` is the value `self.pidtheta(head)` would
return this tick and `pidy_out` the value `self.pidy(y)` would return
(the PID controllers are external stateful collaborators, abstracted as
oracles; `self.pidtheta.setpoint` is always `0`).  The terrain lookup
`terrain[target]` is modelled with its own bounds check. -/
def runFirefly (s : FireflyState) (terrain : List ℚ) (x y vx vy head : ℚ)
    (pidtheta_out pidy_out : ℚ) :
    Except Unit (Instructions × FireflyState) :=
  if s.initial_manoeuvre then
    if |head - 0| < 1 then
      Except.ok ({}, { s with initial_manoeuvre := false })
    else if pidtheta_out > 0 then
      Except.ok ({ left := true, main := true }, s)
    else
      Except.ok ({ right := true, main := true }, s)
  else
    match find_landing_site terrain with
    | Except.error e => Except.error e
    | Except.ok found =>
      let tc : ℕ × Option ℕ :=
        match found, s.target_site with
        | some nt, some c =>
          if |(nt : ℚ) - x| < (c : ℚ) - x then (nt, some nt)
          else (s.initial_target_site, some c)
        | some nt, none => (nt, some nt)
        | none, _ => (s.initial_target_site, s.target_site)
      let target := tc.1
      let s' : FireflyState := { s with target_site := tc.2 }
      let run_to_target : Bool := target != s.initial_target_site
      if run_to_target ∧ terrain.length ≤ target then
        Except.error ()
      else
        let dd : ℚ × ℚ :=
          if run_to_target then ((target : ℚ) - x, 50)
          else ((s.initial_target_site : ℚ) - x, 150)
        if |dd.1| < dd.2 then
          let command : Option Rot :=
            if |vx| ≤ 1/10 then rotate head 0
            else if vx > 1/10 then rotate head 70
            else rotate head (-70)
          if pidy_out > 0 then Except.ok ({ main := true }, s')
          else
            match command with
            | some Rot.left => Except.ok ({ left := true, main := true }, s')
            | some Rot.right => Except.ok ({ right := true, main := true }, s')
            | none => Except.ok ({}, s')
        else
          if pidy_out > 0 then Except.ok ({ main := true }, s')
          else
            match rotate head 0 with
            | some Rot.left => Except.ok ({ left := true, main := true }, s')
            | some Rot.right => Except.ok ({ right := true, main := true }, s')
            | none => Except.ok ({}, s')

/-!
Specification-level view of the terrain analyzer: maximal runs of equal
consecutive altitudes, and the link between them and the arrays computed
by `find_landing_site`.
-/

/-- `isRun t s l`: the half-open block `[s, s + l)` is a maximal run of
equal consecutive altitude values of `t`: it is nonempty, in bounds,
constant, and cannot be extended to the left or to the right. -/
def isRun (t : List ℚ) (s l : ℕ) : Prop :=
  0 < l ∧ s + l ≤ t.length ∧
  (∀ j, s < j → j < s + l → t.getD j 0 = t.getD s 0) ∧
  (s = 0 ∨ t.getD (s-1) 0 ≠ t.getD s 0) ∧
  (s + l = t.length ∨ t.getD (s + l - 1) 0 ≠ t.getD (s + l) 0)

instance (t : List ℚ) (s l : ℕ) : Decidable (isRun t s l) := by
  unfold isRun
  have : Decidable (∀ j, s < j → j < s + l → t.getD j 0 = t.getD s 0) :=
    decidable_of_iff (∀ j < s + l, s < j → t.getD j 0 = t.getD s 0)
      ⟨fun h j h1 h2 => h j h2 h1, fun h j h1 h2 => h j h2 h1⟩
  infer_instance

/-- The start of the run with index `k` being `(run_starts t).getD k 0`,
`nxt t k` is where the next run starts: the following entry of
`run_starts`, or the array length for the last run. -/
def nxt (t : List ℚ) (k : ℕ) : ℕ :=
  if k + 1 < (run_starts t).length then (run_starts t).getD (k+1) 0
  else t.length

lemma mem_run_starts {t : List ℚ} {i : ℕ} :
    i ∈ run_starts t ↔ i < t.length ∧ isRunStart t i := by
  simp [run_starts, List.mem_filter, List.mem_range]

lemma run_starts_sorted (t : List ℚ) : (run_starts t).Pairwise (· < ·) :=
  (List.pairwise_lt_range t.length).filter _

lemma zero_mem_run_starts {t : List ℚ} (h : t ≠ []) : 0 ∈ run_starts t :=
  mem_run_starts.mpr ⟨List.length_pos.mpr h, Or.inl rfl⟩

lemma run_starts_ne_nil {t : List ℚ} (h : t ≠ []) : run_starts t ≠ [] :=
  List.ne_nil_of_mem (zero_mem_run_starts h)

lemma rs_getD_mem {t : List ℚ} {k : ℕ} (hk : k < (run_starts t).length) :
    (run_starts t).getD k 0 ∈ run_starts t := by
  rw [List.getD_eq_getElem _ _ hk]
  exact List.getElem_mem hk

lemma rs_getD_lt_length {t : List ℚ} {k : ℕ} (hk : k < (run_starts t).length) :
    (run_starts t).getD k 0 < t.length :=
  (mem_run_starts.mp (rs_getD_mem hk)).1

lemma rs_getD_strict {t : List ℚ} {a b : ℕ} (hb : b < (run_starts t).length)
    (hab : a < b) : (run_starts t).getD a 0 < (run_starts t).getD b 0 := by
  have ha : a < (run_starts t).length := lt_trans hab hb
  rw [List.getD_eq_getElem _ _ ha, List.getD_eq_getElem _ _ hb]
  exact List.pairwise_iff_get.mp (run_starts_sorted t) ⟨a, ha⟩ ⟨b, hb⟩ hab

lemma np_diff_length : ∀ l : List ℕ, (np_diff l).length = l.length - 1
  | [] => rfl
  | [_] => rfl
  | _ :: b :: rest => by
    simp [np_diff, np_diff_length (b :: rest)]

lemma np_diff_getD : ∀ (l : List ℕ) (k : ℕ), k + 1 < l.length →
    (np_diff l).getD k 0 = l.getD (k+1) 0 - l.getD k 0 := by
  intro l
  induction l with
  | nil => intro k h; simp at h
  | cons a rest ih =>
    cases rest with
    | nil => intro k h; simp at h
    | cons b rest' =>
      intro k h
      cases k with
      | zero => simp [np_diff]
      | succ k' =>
        have hk : k' + 1 < (b :: rest').length := by
          simpa using Nat.lt_of_succ_lt_succ h
        have h2 := ih k' hk
        simp only [np_diff, List.getD_cons_succ] at h2 ⊢
        exact h2

lemma run_lengths_length (t : List ℚ) :
    (run_lengths t).length = (run_starts t).length := by
  simp [run_lengths, np_diff_length]

lemma run_lengths_getD {t : List ℚ} {k : ℕ} (hk : k < (run_starts t).length) :
    (run_lengths t).getD k 0 = nxt t k - (run_starts t).getD k 0 := by
  have h1 : k + 1 < (run_starts t ++ [t.length]).length := by
    simp; omega
  rw [run_lengths, np_diff_getD _ k h1,
    List.getD_append _ _ _ _ hk, nxt]
  by_cases h2 : k + 1 < (run_starts t).length
  · rw [List.getD_append _ _ _ _ h2, if_pos h2]
  · have hlen : (run_starts t).length = k + 1 := by omega
    rw [List.getD_append_right _ _ _ _ (by omega), if_neg h2, hlen]
    simp

lemma nxt_le {t : List ℚ} (k : ℕ) : nxt t k ≤ t.length := by
  unfold nxt
  split
  · exact le_of_lt (rs_getD_lt_length (by assumption))
  · exact le_refl _

lemma getD_lt_nxt {t : List ℚ} {k : ℕ} (hk : k < (run_starts t).length) :
    (run_starts t).getD k 0 < nxt t k := by
  unfold nxt
  split
  · exact rs_getD_strict (by assumption) (Nat.lt_succ_self k)
  · exact rs_getD_lt_length hk

lemma no_start_between {t : List ℚ} {k : ℕ} (hk : k < (run_starts t).length)
    {j : ℕ} (h1 : (run_starts t).getD k 0 < j) (h2 : j < nxt t k) :
    ¬ isRunStart t j := by
  intro hj
  have hjlen : j < t.length := lt_of_lt_of_le h2 (nxt_le k)
  have hjm : j ∈ run_starts t := mem_run_starts.mpr ⟨hjlen, hj⟩
  obtain ⟨m, hm, hget⟩ := List.mem_iff_getElem.mp hjm
  have hmD : (run_starts t).getD m 0 = j := by
    rw [List.getD_eq_getElem _ _ hm, hget]
  have hkm : k < m := by
    by_contra hle
    push_neg at hle
    rcases lt_or_eq_of_le hle with hlt | heq
    · have hx := rs_getD_strict hk hlt
      omega
    · subst heq
      omega
  unfold nxt at h2
  split at h2
  · have hle2 : (run_starts t).getD (k+1) 0 ≤ j := by
      rcases lt_or_eq_of_le (Nat.succ_le_of_lt hkm) with hlt | heq
      · have hlt2 : k + 1 < m := hlt
        have hx := rs_getD_strict hm hlt2
        omega
      · have hm2 : k + 1 = m := heq
        subst hm2
        omega
    omega
  · omega

lemma run_constant {t : List ℚ} {k : ℕ} (hk : k < (run_starts t).length) :
    ∀ j, (run_starts t).getD k 0 ≤ j → j < nxt t k →
      t.getD j 0 = t.getD ((run_starts t).getD k 0) 0 := by
  intro j hsj
  induction j, hsj using Nat.le_induction with
  | base => intro _; rfl
  | succ j hj ih =>
    intro hlt
    have hjlt : j < nxt t k := lt_trans (Nat.lt_succ_self j) hlt
    have hns : ¬ isRunStart t (j+1) :=
      no_start_between hk (by omega) hlt
    unfold isRunStart at hns
    push_neg at hns
    have heq : t.getD j 0 = t.getD (j+1) 0 := by
      have := hns.2
      simpa using this
    rw [← heq]
    exact ih hjlt

lemma not_isRunStart_inside {t : List ℚ} {s l : ℕ} (h : isRun t s l)
    {j : ℕ} (h1 : s < j) (h2 : j < s + l) : ¬ isRunStart t j := by
  intro hj
  rcases hj with hj0 | hjne
  · omega
  · have hjs : t.getD j 0 = t.getD s 0 := h.2.2.1 j h1 h2
    have hjps : t.getD (j-1) 0 = t.getD s 0 := by
      rcases lt_or_eq_of_le (Nat.succ_le_of_lt h1) with hlt | heq
      · exact h.2.2.1 (j-1) (by omega) (by omega)
      · rw [← heq]; simp
    exact hjne (by rw [hjps, hjs])

lemma isRun_of_index {t : List ℚ} {k : ℕ} (hk : k < (run_starts t).length) :
    isRun t ((run_starts t).getD k 0) ((run_lengths t).getD k 0) := by
  have hlen := run_lengths_getD hk
  have hlt := getD_lt_nxt hk
  have hnle := nxt_le (t := t) k
  set s := (run_starts t).getD k 0 with hs
  have hsum : s + (run_lengths t).getD k 0 = nxt t k := by omega
  refine ⟨by omega, by omega, ?_, ?_, ?_⟩
  · intro j hj1 hj2
    exact run_constant hk j (by omega) (by omega)
  · exact (mem_run_starts.mp (rs_getD_mem hk)).2
  · rw [hsum]
    unfold nxt
    split
    · right
      have hmem := mem_run_starts.mp (rs_getD_mem (t := t) (k := k+1) (by assumption))
      rcases hmem.2 with hz | hne
      · exfalso
        have : s < (run_starts t).getD (k+1) 0 := rs_getD_strict (by assumption) (Nat.lt_succ_self k)
        omega
      · exact hne
    · left; rfl

lemma isRun_index {t : List ℚ} {s l : ℕ} (h : isRun t s l) :
    ∃ k, k < (run_starts t).length ∧ (run_starts t).getD k 0 = s ∧
      (run_lengths t).getD k 0 = l := by
  obtain ⟨hl, hsl, hconst, hstart, hend⟩ := h
  have hslen : s < t.length := by omega
  have hsm : s ∈ run_starts t := mem_run_starts.mpr ⟨hslen, hstart⟩
  obtain ⟨k, hk, hget⟩ := List.mem_iff_getElem.mp hsm
  have hkD : (run_starts t).getD k 0 = s := by
    rw [List.getD_eq_getElem _ _ hk, hget]
  refine ⟨k, hk, hkD, ?_⟩
  have hlen := run_lengths_getD hk
  have hnxt : nxt t k = s + l := by
    unfold nxt
    split
    · rename_i hk1
      have hk1mem := mem_run_starts.mp (rs_getD_mem (t := t) (k := k+1) hk1)
      have hgt : s < (run_starts t).getD (k+1) 0 := by
        have := rs_getD_strict hk1 (Nat.lt_succ_self k)
        omega
      by_contra hne
      rcases Nat.lt_or_ge ((run_starts t).getD (k+1) 0) (s + l) with hin | hout
      · exact not_isRunStart_inside ⟨hl, hsl, hconst, hstart, hend⟩ hgt hin hk1mem.2
      · have hout2 : s + l < (run_starts t).getD (k+1) 0 := by omega
        have hslN : s + l < t.length := by omega
        have hsl0 : ¬ s + l = t.length := by omega
        have hslstart : isRunStart t (s + l) := by
          right
          rcases hend with hE | hE
          · omega
          · exact hE
        have hslm : s + l ∈ run_starts t := mem_run_starts.mpr ⟨hslN, hslstart⟩
        obtain ⟨m, hm, hgetm⟩ := List.mem_iff_getElem.mp hslm
        have hmD : (run_starts t).getD m 0 = s + l := by
          rw [List.getD_eq_getElem _ _ hm, hgetm]
        have hkm : k < m := by
          by_contra hle
          push_neg at hle
          rcases lt_or_eq_of_le hle with hlt | heq
          · have hx := rs_getD_strict hk hlt
            omega
          · subst heq
            omega
        have hmk1 : m < k + 1 := by
          by_contra hge
          push_neg at hge
          rcases lt_or_eq_of_le hge with hlt | heq
          · have hx := rs_getD_strict hm hlt
            omega
          · rw [← heq] at hmD
            omega
        omega
    · rename_i hk1
      have hkl : (run_starts t).length = k + 1 := by omega
      by_contra hne
      have hsln : s + l < t.length := by omega
      have hslstart : isRunStart t (s + l) := by
        right
        rcases hend with hE | hE
        · omega
        · exact hE
      have hslm : s + l ∈ run_starts t := mem_run_starts.mpr ⟨hsln, hslstart⟩
      obtain ⟨m, hm, hgetm⟩ := List.mem_iff_getElem.mp hslm
      have hmD : (run_starts t).getD m 0 = s + l := by
        rw [List.getD_eq_getElem _ _ hm, hgetm]
      have hmk : m ≤ k := by omega
      rcases lt_or_eq_of_le hmk with hlt | heq
      · have hx := rs_getD_strict hk hlt
        omega
      · subst heq
        omega
  omega

lemma argmaxGo_spec : ∀ (l : List ℕ) (i bi bv : ℕ),
    (argmaxGo l i bi bv = (bi, bv) ∧ ∀ v ∈ l, v ≤ bv) ∨
    (∃ k, k < l.length ∧ (argmaxGo l i bi bv).1 = i + k ∧
      (argmaxGo l i bi bv).2 = l.getD k 0 ∧ bv < (argmaxGo l i bi bv).2 ∧
      (∀ j, j < k → l.getD j 0 < (argmaxGo l i bi bv).2) ∧
      (∀ j, j < l.length → l.getD j 0 ≤ (argmaxGo l i bi bv).2)) := by
  intro l
  induction l with
  | nil =>
    intro i bi bv
    left
    exact ⟨rfl, by simp⟩
  | cons v rest ih =>
    intro i bi bv
    by_cases hbv : bv < v
    · have hred : argmaxGo (v :: rest) i bi bv = argmaxGo rest (i+1) i v := by
        simp [argmaxGo, hbv]
      rw [hred]
      rcases ih (i+1) i v with ⟨heq, hall⟩ | ⟨k, hk, h1, h2, h3, h4, h5⟩
      · right
        refine ⟨0, by simp, ?_, ?_, ?_, ?_, ?_⟩
        · rw [heq]
          simp
        · rw [heq]
          simp
        · rw [heq]
          exact hbv
        · intro j hj
          exact absurd hj (Nat.not_lt_zero j)
        · intro j hj
          rw [heq]
          cases j with
          | zero => simp
          | succ j' =>
            simp only [List.getD_cons_succ]
            have hj' : j' < rest.length := by simpa using hj
            rw [List.getD_eq_getElem _ _ hj']
            exact hall _ (List.getElem_mem hj')
      · right
        refine ⟨k + 1, by simpa using hk, by omega, ?_, ?_, ?_, ?_⟩
        · simpa using h2
        · exact lt_trans hbv h3
        · intro j hj
          cases j with
          | zero => simpa using h3
          | succ j' =>
            simp only [List.getD_cons_succ]
            exact h4 j' (by omega)
        · intro j hj
          cases j with
          | zero => simpa using le_of_lt h3
          | succ j' =>
            simp only [List.getD_cons_succ]
            exact h5 j' (by simpa using hj)
    · have hred : argmaxGo (v :: rest) i bi bv = argmaxGo rest (i+1) bi bv := by
        simp [argmaxGo, hbv]
      rw [hred]
      rcases ih (i+1) bi bv with ⟨heq, hall⟩ | ⟨k, hk, h1, h2, h3, h4, h5⟩
      · left
        refine ⟨heq, ?_⟩
        intro w hw
        rcases List.mem_cons.mp hw with hw0 | hwr
        · omega
        · exact hall w hwr
      · right
        refine ⟨k + 1, by simpa using hk, by omega, ?_, h3, ?_, ?_⟩
        · simpa using h2
        · intro j hj
          cases j with
          | zero =>
            simp only [List.getD_cons_zero]
            omega
          | succ j' =>
            simp only [List.getD_cons_succ]
            exact h4 j' (by omega)
        · intro j hj
          cases j with
          | zero =>
            simp only [List.getD_cons_zero]
            omega
          | succ j' =>
            simp only [List.getD_cons_succ]
            exact h5 j' (by simpa using hj)

lemma argmax_spec (l : List ℕ) (hl : l ≠ []) :
    argmax l < l.length ∧
    (∀ j, j < l.length → l.getD j 0 ≤ l.getD (argmax l) 0) ∧
    (∀ j, j < argmax l → l.getD j 0 < l.getD (argmax l) 0) := by
  cases l with
  | nil => exact absurd rfl hl
  | cons v rest =>
    rcases argmaxGo_spec rest 1 0 v with ⟨heq, hall⟩ | ⟨k, hk, h1, h2, h3, h4, h5⟩
    · have hA : argmax (v :: rest) = 0 := by
        simp [argmax, heq]
      rw [hA]
      refine ⟨by simp, ?_, ?_⟩
      · intro j hj
        cases j with
        | zero => exact le_refl _
        | succ j' =>
          simp only [List.getD_cons_succ, List.getD_cons_zero]
          have hj' : j' < rest.length := by simpa using hj
          rw [List.getD_eq_getElem _ _ hj']
          exact hall _ (List.getElem_mem hj')
      · intro j hj
        exact absurd hj (Nat.not_lt_zero j)
    · have hA : argmax (v :: rest) = k + 1 := by
        simp [argmax, h1, Nat.add_comm]
      rw [hA]
      have hgv : (v :: rest).getD (k+1) 0 = (argmaxGo rest 1 0 v).2 := by
        simp [h2]
      refine ⟨by simpa using hk, ?_, ?_⟩
      · intro j hj
        rw [hgv]
        cases j with
        | zero => simpa using le_of_lt h3
        | succ j' =>
          simp only [List.getD_cons_succ]
          exact h5 j' (by simpa using hj)
      · intro j hj
        rw [hgv]
        cases j with
        | zero => simpa using h3
        | succ j' =>
          simp only [List.getD_cons_succ]
          exact h4 j' (by omega)

lemma find_landing_site_cons (a : ℚ) (t' : List ℚ) :
    find_landing_site (a :: t') =
      (if 40 < (run_lengths (a :: t')).getD (argmax (run_lengths (a :: t'))) 0 then
        Except.ok (some ((run_starts (a :: t')).getD (argmax (run_lengths (a :: t'))) 0 +
          (run_lengths (a :: t')).getD (argmax (run_lengths (a :: t'))) 0 / 2))
      else Except.ok none) := rfl

lemma run_lengths_ne_nil {t : List ℚ} (h : t ≠ []) : run_lengths t ≠ [] := by
  apply List.ne_nil_of_length_pos
  rw [run_lengths_length]
  exact List.length_pos.mpr (run_starts_ne_nil h)

lemma find_ok_some {t : List ℚ} {i : ℕ} (h : find_landing_site t = Except.ok (some i)) :
    ∃ s l, isRun t s l ∧ 40 < l ∧ i = s + l / 2 ∧
      ∀ s' l', isRun t s' l' → l' ≤ l ∧ (l' = l → s ≤ s') := by
  cases t with
  | nil => simp [find_landing_site] at h
  | cons a t' =>
    rw [find_landing_site_cons] at h
    have hrlen := run_lengths_length (a :: t')
    obtain ⟨hA1, hA2, hA3⟩ :=
      argmax_spec (run_lengths (a :: t')) (run_lengths_ne_nil (List.cons_ne_nil a t'))
    have himaxlt : argmax (run_lengths (a :: t')) < (run_starts (a :: t')).length := by
      omega
    have hrun := isRun_of_index himaxlt
    split at h
    · rename_i hlen
      simp only [Except.ok.injEq, Option.some.injEq] at h
      refine ⟨_, _, hrun, hlen, h.symm, ?_⟩
      intro s' l' hr'
      obtain ⟨k, hk, hks, hkl⟩ := isRun_index hr'
      constructor
      · rw [← hkl]
        exact hA2 k (by omega)
      · intro hll
        by_contra hss
        push_neg at hss
        rcases Nat.lt_or_ge k (argmax (run_lengths (a :: t'))) with hki | hki
        · have := hA3 k hki
          omega
        · rcases lt_or_eq_of_le hki with hlt | heq2
          · have := rs_getD_strict hk hlt
            omega
          · rw [heq2] at hss
            omega
    · simp at h

lemma find_ok_none_of_all_small {t : List ℚ} (hne : t ≠ [])
    (hall : ∀ s l, isRun t s l → l ≤ 40) :
    find_landing_site t = Except.ok none := by
  cases t with
  | nil => exact absurd rfl hne
  | cons a t' =>
    rw [find_landing_site_cons]
    have hrlen := run_lengths_length (a :: t')
    obtain ⟨hA1, _, _⟩ :=
      argmax_spec (run_lengths (a :: t')) (run_lengths_ne_nil (List.cons_ne_nil a t'))
    have himaxlt : argmax (run_lengths (a :: t')) < (run_starts (a :: t')).length := by
      omega
    have hrun := isRun_of_index himaxlt
    exact if_neg (by have := hall _ _ hrun; omega)

/-- Claim C1: whenever `find_landing_site` returns an index, that index is
`start + floor(length * 0.5)` of the maximal run of equal consecutive
altitudes with the greatest length (ties broken by the lowest start
index), and that run's length is strictly greater than 40; if every run's
length is at most 40 it returns `none` ("not found"). -/
theorem claim_C1 (t : List ℚ) :
    (∀ i, find_landing_site t = Except.ok (some i) →
      ∃ s l, isRun t s l ∧ 40 < l ∧ i = s + l / 2 ∧
        ∀ s' l', isRun t s' l' → l' ≤ l ∧ (l' = l → s ≤ s')) ∧
    (t ≠ [] → (∀ s l, isRun t s l → l ≤ 40) →
      find_landing_site t = Except.ok none) :=
  ⟨fun _ h => find_ok_some h, fun hne hall => find_ok_none_of_all_small hne hall⟩

/-- Witness for C1 at two concrete terrains: an all-flat profile of 50
cells (midpoint 25 of the single maximal run) and a 3-cell profile, all
of whose runs are at most 40 wide. -/
theorem claim_C1_witness :
    (∃ s l, isRun (List.replicate 50 (0:ℚ)) s l ∧ 40 < l ∧ 25 = s + l / 2 ∧
      ∀ s' l', isRun (List.replicate 50 (0:ℚ)) s' l' → l' ≤ l ∧ (l' = l → s ≤ s')) ∧
    find_landing_site [(0:ℚ), 1, 0] = Except.ok none := by
  constructor
  · exact (claim_C1 (List.replicate 50 0)).1 25 rfl
  · refine (claim_C1 [0, 1, 0]).2 (by simp) ?_
    intro s l hr
    have h2 := hr.2.1
    simp at h2
    omega

/-- Claim C10: every nonempty terrain of length at most 40 yields
`Except.ok none` (no run can exceed the 40-cell width threshold, and no
error is raised); the empty terrain makes the function fail (the numpy
assignment `loc_run_start[0] = True` is out of bounds), modelled as
`Except.error ()`. -/
theorem claim_C10 (t : List ℚ) :
    (t ≠ [] → t.length ≤ 40 → find_landing_site t = Except.ok none) ∧
    find_landing_site ([] : List ℚ) = Except.error () := by
  constructor
  · intro hne hlen
    apply find_ok_none_of_all_small hne
    intro s l hr
    have := hr.2.1
    omega
  · rfl

/-- Witness for C10 at a concrete 3-cell terrain and the empty terrain. -/
theorem claim_C10_witness :
    find_landing_site [(5:ℚ), 5, 5] = Except.ok none ∧
    find_landing_site ([] : List ℚ) = Except.error () :=
  ⟨(claim_C10 [5, 5, 5]).1 (by simp) (by norm_num), (claim_C10 []).2⟩

/-- Claim C2: `rotate` returns `none` exactly when
`|current - target| < 0.5` (hence `rotate h h = none` for every `h`, and
at `|current - target| = 0.5` exactly it rotates: the dead-band is
one-sided strict `<`); otherwise it returns `left` when
`current < target` and `right` when `current > target`. -/
theorem claim_C2 (current target : ℚ) :
    (rotate current target = none ↔ |current - target| < 1/2) ∧
    rotate current current = none ∧
    (1/2 ≤ |current - target| → current < target →
      rotate current target = some Rot.left) ∧
    (1/2 ≤ |current - target| → target < current →
      rotate current target = some Rot.right) ∧
    (|current - target| = 1/2 → rotate current target ≠ none) := by
  refine ⟨⟨?_, ?_⟩, ?_, ?_, ?_, ?_⟩
  · intro h
    by_contra hlt
    push_neg at hlt
    rw [rotate, if_neg (not_lt.mpr hlt)] at h
    split at h <;> simp_all
  · intro h
    rw [rotate, if_pos h]
  · have h0 : |current - current| < 1/2 := by
      rw [sub_self, abs_zero]
      norm_num
    rw [rotate, if_pos h0]
  · intro h1 h2
    rw [rotate, if_neg (not_lt.mpr h1), if_pos h2]
  · intro h1 h2
    rw [rotate, if_neg (not_lt.mpr h1), if_neg (not_lt.mpr (le_of_lt h2))]
  · intro h1 h2
    rw [rotate, if_neg (by rw [h1]; exact lt_irrefl _)] at h2
    split at h2 <;> simp_all

/-- Witness for C2 at concrete headings, including the exact dead-band
boundary `|current - target| = 0.5`. -/
theorem claim_C2_witness :
    rotate 0 1 = some Rot.left ∧ rotate 1 0 = some Rot.right ∧
    rotate (1/2) 0 ≠ none := by
  refine ⟨(claim_C2 0 1).2.2.1 ?_ ?_, (claim_C2 1 0).2.2.2.1 ?_ ?_,
    (claim_C2 (1/2) 0).2.2.2.2 ?_⟩
  · rw [zero_sub, abs_neg, abs_one]
    norm_num
  · norm_num
  · rw [sub_zero, abs_one]
    norm_num
  · norm_num
  · rw [sub_zero, abs_of_pos (by norm_num : (0:ℚ) < 1/2)]

/-- Claim C3: on every tick of either variant that returns normally, the
emitted `Instructions` never has the left and right rotation flags both
true. -/
theorem claim_C3 :
    (∀ (s : BotState) (terrain : List ℚ) (x y vx vy head : ℚ)
        (instr : Instructions) (s' : BotState),
      runBaseline s terrain x y vx vy head = Except.ok (instr, s') →
      ¬(instr.left = true ∧ instr.right = true)) ∧
    (∀ (s : FireflyState) (terrain : List ℚ) (x y vx vy head pt py : ℚ)
        (instr : Instructions) (s' : FireflyState),
      runFirefly s terrain x y vx vy head pt py = Except.ok (instr, s') →
      ¬(instr.left = true ∧ instr.right = true)) := by
  constructor
  · intro s terrain x y vx vy head instr s' h
    simp only [runBaseline] at h
    repeat' split at h
    all_goals try (exact Except.noConfusion h)
    all_goals (
      simp only [Except.ok.injEq, Prod.mk.injEq] at h
      obtain ⟨h1, h2⟩ := h
      subst h1)
    all_goals (
      first
      | (rintro ⟨hl, hr⟩
         simp at hl hr
         rw [hl] at hr
         simp at hr)
      | (rintro ⟨hl, hr⟩
         simp at hl hr))
  · intro s terrain x y vx vy head pt py instr s'' h
    simp only [runFirefly] at h
    repeat' split at h
    all_goals try (exact Except.noConfusion h)
    all_goals (
      simp only [Except.ok.injEq, Prod.mk.injEq] at h
      obtain ⟨h1, h2⟩ := h
      subst h1)
    all_goals (
      rintro ⟨hl, hr⟩
      simp at hl hr)

/-- Witness for C3: one concrete successful tick of each variant. -/
theorem claim_C3_witness :
    ¬(({ main := true } : Instructions).left = true ∧
      ({ main := true } : Instructions).right = true) ∧
    ¬(({} : Instructions).left = true ∧ ({} : Instructions).right = true) :=
  ⟨claim_C3.1 ⟨true, none⟩ [] 0 0 15 0 0 { main := true } ⟨true, none⟩ rfl,
   claim_C3.2 ⟨true, none, 512⟩ [] 0 0 0 0 0 0 0 {} ⟨false, none, 512⟩
     (by norm_num [runFirefly])⟩

/-- Claim C4: in the baseline initial-orientation phase, `vx > 10` fires
the main thruster with no rotation and leaves the state unchanged;
otherwise the rotation primitive toward 0° is applied (left/right flag
set, state unchanged) unless it returns `none`, in which case the phase
flag is cleared exactly once; and once cleared it is never set again by
any later tick. -/
theorem claim_C4 :
    (∀ (s : BotState) (terrain : List ℚ) (x y vx vy head : ℚ),
      s.initial_manoeuvre = true →
      (10 < vx →
        runBaseline s terrain x y vx vy head = Except.ok ({ main := true }, s)) ∧
      (vx ≤ 10 → rotate head 0 = some Rot.left →
        runBaseline s terrain x y vx vy head = Except.ok ({ left := true }, s)) ∧
      (vx ≤ 10 → rotate head 0 = some Rot.right →
        runBaseline s terrain x y vx vy head = Except.ok ({ right := true }, s)) ∧
      (vx ≤ 10 → rotate head 0 = none →
        runBaseline s terrain x y vx vy head =
          Except.ok ({}, { s with initial_manoeuvre := false }))) ∧
    (∀ (s : BotState) (terrain : List ℚ) (x y vx vy head : ℚ)
        (instr : Instructions) (s' : BotState),
      s.initial_manoeuvre = false →
      runBaseline s terrain x y vx vy head = Except.ok (instr, s') →
      s'.initial_manoeuvre = false) := by
  constructor
  · intro s terrain x y vx vy head hs
    refine ⟨?_, ?_, ?_, ?_⟩
    · intro h10
      rw [runBaseline, if_pos hs, if_pos h10]
    · intro hle hrot
      rw [runBaseline, if_pos hs, if_neg (not_lt.mpr hle), hrot]
    · intro hle hrot
      rw [runBaseline, if_pos hs, if_neg (not_lt.mpr hle), hrot]
    · intro hle hrot
      rw [runBaseline, if_pos hs, if_neg (not_lt.mpr hle), hrot]
  · intro s terrain x y vx vy head instr s' hs h
    simp only [runBaseline, hs, Bool.false_eq_true, if_false] at h
    repeat' split at h
    all_goals try (exact Except.noConfusion h)
    all_goals (
      simp only [Except.ok.injEq, Prod.mk.injEq] at h
      obtain ⟨h1, h2⟩ := h
      subst h2
      simp [hs])

/-- Witness for C4: the `vx = 15` tick of the phase-machine scenario and
a concrete post-orientation tick that keeps the flag cleared. -/
theorem claim_C4_witness :
    runBaseline ⟨true, none⟩ [] 0 0 15 0 0 =
      Except.ok ({ main := true }, ⟨true, none⟩) ∧
    (BotState.mk false (some 7)).initial_manoeuvre = false := by
  constructor
  · exact (claim_C4.1 ⟨true, none⟩ [] 0 0 15 0 0 rfl).1 (by norm_num)
  · exact claim_C4.2 ⟨false, some 7⟩ [] 100 0 0 1 0 {} ⟨false, some 7⟩ rfl
      (by norm_num [runBaseline])

/-- Claim C5: baseline close-range approach (cached target `v` with
`|v - x| < 50`): near-zero drift (`|vx| ≤ 0.1`) rotates toward 0° with
the main thruster only forced by the terminal-descent override
(`|vx| < 0.5` and `vy < -3`); `vx > 0.1` rotates toward 90° with
`main = true`; `vx < -0.1` rotates toward -90° with main withheld except
for the same override; the state is unchanged. -/
theorem claim_C5 (s : BotState) (terrain : List ℚ) (x y vx vy head : ℚ) (v : ℕ)
    (h1 : s.initial_manoeuvre = false) (h2 : s.target_site = some v)
    (h3 : |(v:ℚ) - x| < 50) :
    (|vx| ≤ 1/10 →
      runBaseline s terrain x y vx vy head = Except.ok
        ({ main := decide (|vx| < 1/2 ∧ vy < -3),
           left := rotate head 0 == some Rot.left,
           right := rotate head 0 == some Rot.right }, s)) ∧
    (1/10 < vx →
      runBaseline s terrain x y vx vy head = Except.ok
        ({ main := true,
           left := rotate head 90 == some Rot.left,
           right := rotate head 90 == some Rot.right }, s)) ∧
    (vx < -(1/10) →
      runBaseline s terrain x y vx vy head = Except.ok
        ({ main := decide (|vx| < 1/2 ∧ vy < -3),
           left := rotate head (-90) == some Rot.left,
           right := rotate head (-90) == some Rot.right }, s)) := by
  have hseq : ({ initial_manoeuvre := false, target_site := some v } : BotState) = s := by
    rw [← h1, ← h2]
  refine ⟨?_, ?_, ?_⟩
  · intro hvx
    simp only [runBaseline, h1, h2, Bool.false_eq_true, if_false]
    rw [if_pos h3, if_pos hvx, hseq]
    by_cases hov : |vx| < 1/2 ∧ vy < -3
    · rw [if_pos hov, decide_eq_true hov]
    · rw [if_neg hov, decide_eq_false hov]
  · intro hvx
    have hA : ¬(|vx| ≤ 1/10) := not_le.mpr (lt_of_lt_of_le hvx (le_abs_self vx))
    simp only [runBaseline, h1, h2, Bool.false_eq_true, if_false]
    rw [if_pos h3, if_neg hA, if_pos hvx, hseq]
    by_cases hov : |vx| < 1/2 ∧ vy < -3
    · rw [if_pos hov]
    · rw [if_neg hov]
  · intro hvx
    have hA : ¬(|vx| ≤ 1/10) :=
      not_le.mpr (lt_of_lt_of_le (by linarith) (neg_le_abs vx))
    have hB : ¬(1/10 < vx) := not_lt.mpr (by linarith)
    simp only [runBaseline, h1, h2, Bool.false_eq_true, if_false]
    rw [if_pos h3, if_neg hA, if_neg hB, hseq]
    by_cases hov : |vx| < 1/2 ∧ vy < -3
    · rw [if_pos hov, decide_eq_true hov]
    · rw [if_neg hov, decide_eq_false hov]

/-- Witness for C5 at a concrete close-range tick with near-zero drift
and fast descent. -/
theorem claim_C5_witness :
    runBaseline ⟨false, some 10⟩ [] 0 0 0 (-5) 0 = Except.ok
      ({ main := decide (|(0:ℚ)| < 1/2 ∧ (-5:ℚ) < -3),
         left := rotate 0 0 == some Rot.left,
         right := rotate 0 0 == some Rot.right }, ⟨false, some 10⟩) :=
  (claim_C5 ⟨false, some 10⟩ [] 0 0 0 (-5) 0 10 rfl rfl (by norm_num)).1
    (by norm_num)

/-- Claim C6: baseline cruise sub-state — with a cached target `v` and
`|v - x| ≥ 50`, the tick returns `main = true` iff `vy < 0`, no rotation
flags, and an unchanged state. -/
theorem claim_C6 (s : BotState) (terrain : List ℚ) (x y vx vy head : ℚ) (v : ℕ)
    (h1 : s.initial_manoeuvre = false) (h2 : s.target_site = some v)
    (h3 : 50 ≤ |(v:ℚ) - x|) :
    runBaseline s terrain x y vx vy head =
      Except.ok ({ main := decide (vy < 0) }, s) := by
  have hseq : ({ initial_manoeuvre := false, target_site := some v } : BotState) = s := by
    rw [← h1, ← h2]
  simp only [runBaseline, h1, h2, Bool.false_eq_true, if_false]
  rw [if_neg (not_lt.mpr h3), hseq]
  by_cases hvy : vy < 0
  · rw [if_pos hvy, decide_eq_true hvy]
  · rw [if_neg hvy, decide_eq_false hvy]

/-- Witness for C6 at the end-to-end scenario's kinematics (`x = 10`,
`vy = -5`, cached target 120, so `diff = 110 ≥ 50`). -/
theorem claim_C6_witness :
    runBaseline ⟨false, some 120⟩ [] 10 500 0 (-5) 0 =
      Except.ok ({ main := decide ((-5:ℚ) < 0) }, ⟨false, some 120⟩) :=
  claim_C6 ⟨false, some 120⟩ [] 10 500 0 (-5) 0 120 rfl rfl (by norm_num)

/-- Counterexample for C7 as stated: on a flat 100-cell terrain the
analyzer returns site 50; with cached site 40 and the vehicle at
`x = 100`, the new site 50 is strictly closer (`|50-100| < |40-100|`),
yet the tick keeps the cached site 40, because the code compares against
the signed quantity `cached - x = -60` instead of its absolute value. -/
theorem claim_C7_counterexample :
    find_landing_site (List.replicate 100 (0:ℚ)) = Except.ok (some 50) ∧
    runFirefly ⟨false, some 40, 512⟩ (List.replicate 100 (0:ℚ)) 100 0 0 0 0 0 0 =
      Except.ok ({}, ⟨false, some 40, 512⟩) ∧
    |(50:ℚ) - 100| < |(40:ℚ) - 100| := by
  refine ⟨rfl, ?_, ?_⟩
  · rw [runFirefly]
    norm_num [show find_landing_site (List.replicate 100 (0:ℚ)) = Except.ok (some 50)
      from rfl, rotate]
  · rw [show ((50:ℚ) - 100) = -50 by norm_num, show ((40:ℚ) - 100) = -60 by norm_num,
      abs_neg, abs_neg, abs_of_nonneg (by norm_num : (0:ℚ) ≤ 50),
      abs_of_nonneg (by norm_num : (0:ℚ) ≤ 60)]
    norm_num

/-- Claim C7 as amended: on a post-orientation tick of the advanced
variant where the analyzer finds a site `nt` and a site `c` is cached,
the cached site after the tick is `nt` exactly when
`|nt - x| < c - x` with the right-hand side signed (not in absolute
value) — the comparison the code actually performs; otherwise the cache
keeps `c`. -/
theorem claim_C7_amended (s : FireflyState) (terrain : List ℚ)
    (x y vx vy head pt py : ℚ) (nt c : ℕ) (instr : Instructions) (s' : FireflyState)
    (h1 : s.initial_manoeuvre = false)
    (h2 : find_landing_site terrain = Except.ok (some nt))
    (h3 : s.target_site = some c)
    (hr : runFirefly s terrain x y vx vy head pt py = Except.ok (instr, s')) :
    s'.target_site = if |(nt:ℚ) - x| < (c:ℚ) - x then some nt else some c := by
  simp only [runFirefly, h1, h2, h3, Bool.false_eq_true, if_false] at hr
  by_cases hc : |(nt:ℚ) - x| < (c:ℚ) - x
  · rw [if_pos hc]
    rw [if_pos hc] at hr
    repeat' split at hr
    all_goals try (exact Except.noConfusion hr)
    all_goals (
      simp only [Except.ok.injEq, Prod.mk.injEq] at hr
      obtain ⟨ha, hb⟩ := hr
      subst hb
      simp)
  · rw [if_neg hc]
    rw [if_neg hc] at hr
    repeat' split at hr
    all_goals try (exact Except.noConfusion hr)
    all_goals (
      simp only [Except.ok.injEq, Prod.mk.injEq] at hr
      obtain ⟨ha, hb⟩ := hr
      subst hb
      simp)

/-- Witness for the amended C7 at the counterexample's concrete tick. -/
theorem claim_C7_witness :
    (FireflyState.mk false (some 40) 512).target_site =
      if |(50:ℚ) - 100| < (40:ℚ) - 100 then some 50 else some 40 := by
  have hf : find_landing_site (List.replicate 100 (0:ℚ)) = Except.ok (some 50) := rfl
  have hr : runFirefly ⟨false, some 40, 512⟩ (List.replicate 100 (0:ℚ)) 100 0 0 0 0 0 0 =
      Except.ok ({}, ⟨false, some 40, 512⟩) := by
    rw [runFirefly]
    norm_num [hf, rotate]
  exact claim_C7_amended ⟨false, some 40, 512⟩ (List.replicate 100 (0:ℚ))
    100 0 0 0 0 0 0 50 40 {} ⟨false, some 40, 512⟩ rfl hf rfl hr

/-- Claim C8: on every post-orientation tick of the advanced variant
whose altitude controller output `pidy_out` is strictly positive, the
returned instruction is exactly `main = true` with both rotation flags
false, in both the close-range and the far-from-target sub-states. -/
theorem claim_C8 (s : FireflyState) (terrain : List ℚ)
    (x y vx vy head pt py : ℚ) (instr : Instructions) (s' : FireflyState)
    (h1 : s.initial_manoeuvre = false) (h2 : 0 < py)
    (hr : runFirefly s terrain x y vx vy head pt py = Except.ok (instr, s')) :
    instr = { main := true } := by
  simp only [runFirefly, h1, Bool.false_eq_true, if_false] at hr
  repeat' split at hr
  all_goals try (exact Except.noConfusion hr)
  all_goals (
    first
    | (exfalso
       exact absurd h2 (by assumption))
    | (simp only [Except.ok.injEq, Prod.mk.injEq] at hr
       obtain ⟨ha, hb⟩ := hr
       subst ha
       rfl))

/-- Witness for C8: a concrete post-orientation tick with
`pidy_out = 1 > 0` (terrain of one cell, no site found, far sub-state). -/
theorem claim_C8_witness :
    runFirefly ⟨false, none, 512⟩ [(0:ℚ)] 0 0 0 0 0 0 1 =
      Except.ok ({ main := true }, ⟨false, none, 512⟩) ∧
    ({ main := true } : Instructions) = { main := true } := by
  have hr : runFirefly ⟨false, none, 512⟩ [(0:ℚ)] 0 0 0 0 0 0 1 =
      Except.ok ({ main := true }, ⟨false, none, 512⟩) := by
    rw [runFirefly]
    norm_num [show find_landing_site [(0:ℚ)] = Except.ok none from rfl]
  exact ⟨hr, claim_C8 ⟨false, none, 512⟩ [(0:ℚ)] 0 0 0 0 0 0 1 { main := true }
    ⟨false, none, 512⟩ rfl (by norm_num) hr⟩

/-- Claim C9 (implicit): in the baseline variant the cached landing site
is permanent — any tick run with a cached site leaves it unchanged — and
with a cached site the tick's result does not depend on the terrain at
all (the analyzer is consulted only while the cache is empty). -/
theorem claim_C9 :
    (∀ (s : BotState) (terrain : List ℚ) (x y vx vy head : ℚ) (v : ℕ)
        (instr : Instructions) (s' : BotState),
      s.target_site = some v →
      runBaseline s terrain x y vx vy head = Except.ok (instr, s') →
      s'.target_site = some v) ∧
    (∀ (s : BotState) (terrain terrain' : List ℚ) (x y vx vy head : ℚ) (v : ℕ),
      s.target_site = some v →
      runBaseline s terrain x y vx vy head = runBaseline s terrain' x y vx vy head) := by
  constructor
  · intro s terrain x y vx vy head v instr s' hv h
    simp only [runBaseline, hv] at h
    repeat' split at h
    all_goals try (exact Except.noConfusion h)
    all_goals (
      simp only [Except.ok.injEq, Prod.mk.injEq] at h
      obtain ⟨h1, h2⟩ := h
      subst h2
      simp [hv])
  · intro s terrain terrain' x y vx vy head v hv
    simp only [runBaseline, hv]

/-- Witness for C9: a concrete cruise tick keeps the cached site 5, and
two different terrains produce the same tick result. -/
theorem claim_C9_witness :
    (BotState.mk false (some 5)).target_site = some 5 ∧
    runBaseline ⟨false, some 5⟩ [] 100 0 0 1 0 =
      runBaseline ⟨false, some 5⟩ [0, 1, 2] 100 0 0 1 0 := by
  constructor
  · exact claim_C9.1 ⟨false, some 5⟩ [] 100 0 0 1 0 5 {} ⟨false, some 5⟩ rfl
      (by norm_num [runBaseline])
  · exact claim_C9.2 ⟨false, some 5⟩ [] [0, 1, 2] 100 0 0 1 0 5 rfl
